import Mathlib

/-!
# Simple media player: the main window's handlers

A shallow embedding of `src/main_window.cpp`.  The window owns a playlist, a
player and its widgets; every slot of `MainWindow` becomes a function on the
record `MainWindow`.  The toolkit services the slots call (file information,
URL parsing, the playlist container, the playback engine) are not part of the
repository: file and URL services are taken as a parameter `Qt`, the playlist
container and the engine commands are modelled from the specification.
-/

namespace SimpleMediaPlayer

/-! ## Strings and machine integers -/

/-- A `QChar`: one UTF-16 code unit. -/
abbrev QChar := Fin 65536

/-- A `QString`, as the sequence of its UTF-16 code units: `length()` counts
them and `right(n)` keeps the last `n` of them. -/
abbrev QString := List QChar

/-- The code units of a character: itself in the Basic Multilingual Plane, a
surrogate pair otherwise. -/
def utf16Units (c : Char) : List QChar :=
  if c.toNat < 65536 then [Fin.ofNat c.toNat]
  else [Fin.ofNat (55296 + (c.toNat - 65536) / 1024), Fin.ofNat (56320 + (c.toNat - 65536) % 1024)]

/-- The `QString` of a string literal of the source. -/
def utf16 (s : String) : QString := s.toList.flatMap utf16Units

/-- The line feed, the character of "\n". -/
def LF : QChar := 10

/-- The carriage return, the character of "\r". -/
def CR : QChar := 13

/-- The path separator, a slash. -/
def slash : QChar := 47

/-- The colon. -/
def colon : QChar := 58

/-- The dot. -/
def dot : QChar := 46

/-- The value of a 64-bit signed integer expression after wrap-around. -/
def wrap64 (x : Int) : Int := (x + 2 ^ 63) % 2 ^ 64 - 2 ^ 63

/-- The value of a `qint64` converted to `int` (32-bit, wrap-around). -/
def wrap32 (x : Int) : Int := (x + 2 ^ 31) % 2 ^ 32 - 2 ^ 31

/-- The call `QString::right(n)`: the last `n` code units; the whole string
when `n` is negative or not smaller than the size. -/
def right (s : QString) (n : Int) : QString :=
  if n < 0 ∨ (s.length : Int) ≤ n then s else s.drop (s.length - n.toNat)

/-! ## The text stream of `on_loadPlaylist_clicked` -/

/-- A line without its end-of-line characters: `readLine` returns the line
without the trailing "\n" or "\r\n". -/
def chopCR (line : QString) : QString :=
  if line.getLast? = some CR then line.dropLast else line

/-- The call `QTextStream::readLine()`: the line up to the next line feed (or
to the end of the text), and the text that remains after that terminator. -/
def readLine (s : QString) : QString × QString :=
  (chopCR (s.takeWhile (fun c => c != LF)), (s.dropWhile (fun c => c != LF)).drop 1)

/-- The call `QTextStream::atEnd()`: no more text to read. -/
def atEnd (s : QString) : Bool := s.isEmpty

/-- The loop `while (!in.atEnd()) filenames.push_back(in.readLine());`, with a
bound on the number of iterations; `none` when the bound is reached before the
stream is at its end. -/
def readFilenames : Nat → QString → List QString → Option (List QString)
  | fuel, s, filenames =>
    if atEnd s then some filenames
    else match fuel with
      | 0 => none
      | fuel + 1 => readFilenames fuel (readLine s).2 (filenames ++ [(readLine s).1])

/-- The suffix of a playlist file, `QString("m3u")`. -/
def m3u : QString := (utf16 "m3u")

/-- The header line of the Simple Playlist Format. -/
def spfHeader : QString := (utf16 "Simple Playlist Format 1.0")

/-! ## Toolkit services taken as a parameter -/

/-- The file and URL services of the toolkit that the handlers call, for a
type `Url` of URLs (`QUrl`). -/
structure Qt (Url : Type) where
  /-- The result of `QFileInfo(name).exists()`. -/
  fileExists : QString → Bool
  /-- The result of `QFileInfo(name).absoluteFilePath()`. -/
  absoluteFilePath : QString → QString
  /-- The result of `QFileInfo(name).suffix()`. -/
  suffix : QString → QString
  /-- The result of `QFileInfo(name).filePath()`. -/
  filePath : QString → QString
  /-- The result of `QString::toLower()`. -/
  toLower : QString → QString
  /-- The result of `QUrl::fromLocalFile(path)`. -/
  fromLocalFile : QString → Url
  /-- The URL `QUrl(text)`. -/
  url : QString → Url
  /-- The result of `QUrl::isValid()`. -/
  isValid : Url → Bool
  /-- The result of `QUrl::path()`. -/
  path : Url → QString
  /-- The media sequence after `QMediaPlaylist::load(url)`, from the media
  sequence before it. -/
  playlistLoad : Url → List Url → List Url

/-! ## The playlist container -/

/-- The playback modes of the playlist. -/
inductive PlaybackMode where
  | Sequential
  | Loop
  | Random
  deriving DecidableEq, Repr

/-- The errors of the playlist operations. -/
inductive PlaylistError where
  | IndexOutOfRange
  | EmptyPlaylist
  deriving DecidableEq, Repr

/-- The direction of an advance. -/
inductive Direction where
  | Next
  | Previous
  deriving DecidableEq, Repr

/-- Modelled from the spec: the playlist container `QMediaPlaylist` of the
toolkit, which is not under `src/`; the data model is that of section 3:
the ordered items, the optional current index, the playback mode. -/
structure QMediaPlaylist (Url : Type) where
  media : List Url
  currentIndex : Option Int
  playbackMode : PlaybackMode

namespace QMediaPlaylist

variable {Url : Type}

/-- Modelled from the spec: the length of `items` (`mediaCount()`), absent
from `src/`. -/
def mediaCount (pl : QMediaPlaylist Url) : Int := pl.media.length

/-- Modelled from the spec: query-by-position (`media(i)`), absent from
`src/`: the item at a position, `none` (a null content) outside the range. -/
def mediaAt (pl : QMediaPlaylist Url) (i : Int) : Option Url :=
  if 0 ≤ i then pl.media.get? i.toNat else none

/-- Modelled from the spec: `append` of section 4.1 (`addMedia`), absent from
`src/`: adds to the end, always succeeds. -/
def addMedia (pl : QMediaPlaylist Url) (u : Url) : QMediaPlaylist Url :=
  { pl with media := pl.media ++ [u] }

/-- Modelled from the spec: the renormalisation of section 3 after a removal:
the current index is clamped into the range of the remaining items, or is
`none` when no item remains. -/
def renormalize (cur : Option Int) (len : Nat) : Option Int :=
  match cur with
  | none => none
  | some c => if len = 0 then none else some (max 0 (min c ((len : Int) - 1)))

/-- Modelled from the spec: `removeAt` of section 4.1 (`removeMedia`), absent
from `src/`: fails with `IndexOutOfRange` when the index is not in
`[0, len)`, otherwise removes the item and renormalises the current index. -/
def removeMedia (pl : QMediaPlaylist Url) (pos : Int) :
    Except PlaylistError (QMediaPlaylist Url) :=
  if 0 ≤ pos ∧ pos < pl.mediaCount then
    .ok { pl with
      media := pl.media.eraseIdx pos.toNat
      currentIndex := renormalize pl.currentIndex (pl.media.length - 1) }
  else .error .IndexOutOfRange

/-- Modelled from the spec: `clear` of section 4.1, absent from `src/`. -/
def clear (pl : QMediaPlaylist Url) : QMediaPlaylist Url :=
  { pl with media := [], currentIndex := none }

/-- Modelled from the spec: `setCurrent` of section 4.1 (`setCurrentIndex`),
absent from `src/`: fails when the index is out of range. -/
def setCurrentIndex (pl : QMediaPlaylist Url) (pos : Int) :
    Except PlaylistError (QMediaPlaylist Url) :=
  if 0 ≤ pos ∧ pos < pl.mediaCount then .ok { pl with currentIndex := some pos }
  else .error .IndexOutOfRange

/-- The step of a direction: `+1` for Next, `-1` for Previous. -/
def step : Direction → Int
  | .Next => 1
  | .Previous => -1

/-- The indices other than the current one, in order. -/
def otherIndices (pl : QMediaPlaylist Url) : List Int :=
  ((List.range pl.media.length).map (fun i => (i : Int))).filter
    (fun i => pl.currentIndex != some i)

/-- Modelled from the spec: `advance` of section 4.1 (`next`, `previous`),
absent from `src/`.  Sequential: `currentIndex + 1` or `- 1`, and "no current"
when that leaves the range; Loop: the same modulo the length; Random: an index
different from the current one when there are several items (`draw` is the
random draw), the sole index when there is one.  Fails with `EmptyPlaylist`
on an empty playlist.  The spec does not say from where an advance starts when
there is no current item; the model starts it before the first item. -/
def advance (pl : QMediaPlaylist Url) (d : Direction) (draw : Nat) :
    Except PlaylistError (QMediaPlaylist Url) :=
  if pl.media.isEmpty then .error .EmptyPlaylist
  else
    let cur : Int := pl.currentIndex.getD (-1)
    match pl.playbackMode with
    | .Sequential =>
      let n := cur + step d
      .ok { pl with currentIndex := if 0 ≤ n ∧ n < pl.mediaCount then some n else none }
    | .Loop => .ok { pl with currentIndex := some ((cur + step d) % pl.mediaCount) }
    | .Random =>
      if pl.media.length = 1 then .ok { pl with currentIndex := some 0 }
      else
        let others := pl.otherIndices
        .ok { pl with currentIndex := others.get? (draw % others.length) }

end QMediaPlaylist

/-! ## The playback engine -/

/-- Modelled from the spec: the state of the playback engine (`QMediaPlayer`,
not under `src/`) that the commands of section 6 write: the mute flag, the
volume in `0..100`, and the duration of the current media in milliseconds. -/
structure QMediaPlayer where
  muted : Bool
  volume : Int
  duration : Int
  deriving DecidableEq, Repr

namespace QMediaPlayer

/-- Modelled from the spec: the engine command `setMuted(bool)` of section 6. -/
def setMuted (p : QMediaPlayer) (m : Bool) : QMediaPlayer := { p with muted := m }

/-- Modelled from the spec: the engine command `setVolume(0..100)` of
section 6; the spec gives the range only, and as in the toolkit a value outside
it is brought to its nearest bound. -/
def setVolume (p : QMediaPlayer) (v : Int) : QMediaPlayer :=
  { p with volume := max 0 (min v 100) }

end QMediaPlayer

/-! ## The widgets -/

/-- A slider: its range, its value, and whether the user holds it down. -/
structure QSlider where
  minimum : Int
  maximum : Int
  value : Int
  sliderDown : Bool
  deriving DecidableEq, Repr

/-- The call `QAbstractSlider::setValue`: the value is kept within the range. -/
def QSlider.setValue (s : QSlider) (v : Int) : QSlider :=
  { s with value := max s.minimum (min v s.maximum) }

/-- The arguments of a `QTime(h, m, s, ms)`. -/
structure QTime where
  h : Int
  m : Int
  s : Int
  ms : Int
  deriving DecidableEq, Repr

/-- The text of a label: a literal, or `time.toString(format)`. -/
inductive LabelText where
  | literal (text : QString)
  | time (t : QTime) (format : QString)
  deriving DecidableEq, Repr

/-- The standard icons of the mute button. -/
inductive StandardPixmap where
  | SP_MediaVolume
  | SP_MediaVolumeMuted
  deriving DecidableEq, Repr

/-- The widgets the modelled slots read and write. -/
structure Ui where
  duration : QSlider
  currentDuration : LabelText
  maxDuration : LabelText
  volume : QSlider
  volumeDisplay : Int
  mute : StandardPixmap
  deriving DecidableEq, Repr

/-! ## The window -/

/-- The icon of a message box. -/
inductive Icon where
  | Information
  | Critical
  deriving DecidableEq, Repr

/-- What a handler does, in program order, besides writing the members of the
window: a line read from the text stream, a mutation of the playlist, a
message box shown to the user. -/
inductive Effect (Url : Type) where
  | readLine (line : QString)
  | addMedia (u : Url)
  | load (u : Url)
  | messageBox (text : QString) (icon : Icon)
  deriving DecidableEq, Repr

/-- The members of `MainWindow`, and the record of the effects so far. -/
structure MainWindow (Url : Type) where
  ui : Ui
  player : QMediaPlayer
  playlist : QMediaPlaylist Url
  log : List (Effect Url)

namespace MainWindow

variable {Url : Type}

/-- The constructor: a new playlist in Sequential mode, a new player (its
initial state is the toolkit's), the widgets of `setupUi` with the standard
volume icon on the mute button. -/
def new (player : QMediaPlayer) (ui : Ui) : MainWindow Url :=
  { ui := { ui with mute := .SP_MediaVolume }
    player := player
    playlist := { media := [], currentIndex := none, playbackMode := .Sequential }
    log := [] }

/-- Adds an entry to the record of effects. -/
def emit (w : MainWindow Url) (e : Effect Url) : MainWindow Url :=
  { w with log := w.log ++ [e] }

/-- The statements `messageBox.setText(text); messageBox.setIcon(icon);
`messageBox.exec();`. -/
def messageBox (w : MainWindow Url) (text : String) (icon : Icon) : MainWindow Url :=
  w.emit (.messageBox (utf16 text) icon)

/-- The call `playlist->addMedia(url)`. -/
def addMedia (w : MainWindow Url) (u : Url) : MainWindow Url :=
  { w with playlist := w.playlist.addMedia u, log := w.log ++ [.addMedia u] }

/-- The call `playlist->load(url)`. -/
def playlistLoad (env : Qt Url) (w : MainWindow Url) (u : Url) : MainWindow Url :=
  { w with
    playlist := { w.playlist with media := env.playlistLoad u w.playlist.media }
    log := w.log ++ [.load u] }

/-- The slot `muted(bool)`. -/
def muted (w : MainWindow Url) (muted : Bool) : MainWindow Url :=
  let ui :=
    if muted then
      { w.ui with volume := w.ui.volume.setValue 0, volumeDisplay := 0 }
    else
      { w.ui with volume := w.ui.volume.setValue w.player.volume
                  volumeDisplay := w.player.volume }
  { w with ui := { ui with mute := if muted then .SP_MediaVolumeMuted else .SP_MediaVolume } }

/-- The slot `volumeChanged(int)`. -/
def volumeChanged (w : MainWindow Url) (_volume : Int) : MainWindow Url :=
  { w with ui := { w.ui with volume := w.ui.volume.setValue w.player.volume
                             volumeDisplay := w.player.volume } }

/-- The clock value built at line 127 (and 128) from a number of seconds. -/
def clock (seconds : Int) : QTime :=
  { h := (seconds.tdiv 3600).tmod 60
    m := (seconds.tdiv 60).tmod 60
    s := seconds.tmod 60
    ms := (wrap64 (seconds * 1000)).tmod 1000 }

/-- The slot `progressChanged(qint64)`. -/
def progressChanged (w : MainWindow Url) (progress : Int) : MainWindow Url :=
  let ui :=
    if !w.ui.duration.sliderDown then
      { w.ui with duration := w.ui.duration.setValue (wrap32 (progress.tdiv 1000)) }
    else w.ui
  if progress ≠ 0 then
    let duration := w.player.duration.tdiv 1000
    let current := progress.tdiv 1000
    let currentTime := clock current
    let totalTime := clock duration
    let format := if duration < 3600 then (utf16 "mm:ss") else (utf16 "hh:mm:ss")
    { w with ui := { ui with currentDuration := .time currentTime format
                             maxDuration := .time totalTime format } }
  else { w with ui := ui }

/-- The body of the loop of `appendPlaylist`, for one filename. -/
def appendOne (env : Qt Url) (w : MainWindow Url) (filename : QString) : MainWindow Url :=
  if env.fileExists filename then
    let url := env.fromLocalFile (env.absoluteFilePath filename)
    if env.toLower (env.suffix filename) = m3u then
      w.playlistLoad env url
    else
      w.addMedia url
  else
    let url := env.url filename
    if env.isValid url then w.addMedia url else w

/-- The method `appendPlaylist(filenames)`. -/
def appendPlaylist (env : Qt Url) (w : MainWindow Url) (filenames : List QString) :
    MainWindow Url :=
  filenames.foldl (appendOne env) w

/-- The slot `on_addTracks_clicked`; `filenames` is what the file dialog
returns. -/
def on_addTracks_clicked (env : Qt Url) (w : MainWindow Url) (filenames : List QString) :
    MainWindow Url :=
  w.appendPlaylist env filenames

/-- The slot `on_loadPlaylist_clicked`.  `filename` is what the file dialog
returns, `file` the text of that file when it can be opened for reading.  The
result is `none` only if the reading loop does not finish within its bound. -/
def on_loadPlaylist_clicked (env : Qt Url) (w : MainWindow Url) (filename : QString)
    (file : Option QString) : Option (MainWindow Url) :=
  if filename.isEmpty then some w
  else match file with
    | some text =>
      let header := (readLine text).1
      let w := w.emit (.readLine header)
      if header ≠ spfHeader then
        some (w.messageBox "The selected file is not a valid SPF file." .Critical)
      else
        match readFilenames (readLine text).2.length (readLine text).2 [] with
        | some filenames =>
          some ((filenames.foldl (fun w l => w.emit (.readLine l)) w).appendPlaylist env filenames)
        | none => none
    | none => some (w.messageBox "An error occurred while loading the playlist." .Critical)

/-- The line written for item `i` (lines 251 to 257, without the newline). -/
def savedLine (env : Qt Url) (pl : QMediaPlaylist Url) (i : Int) : QString :=
  let location_path := match pl.mediaAt i with
    | some u => env.path u
    | none => []
  let path := env.filePath location_path
  right path ((path.length : Int) - 1)

/-- The loop `for (int i = 0; i < playlist->mediaCount(); ++i)` of the save
handler, from index `i` on, for at most `fuel` iterations. -/
def saveLoop (env : Qt Url) (pl : QMediaPlaylist Url) : Nat → Int → QString → QString
  | 0, _, out => out
  | fuel + 1, i, out =>
    if i < pl.mediaCount then
      saveLoop env pl fuel (i + 1) (out ++ savedLine env pl i ++ (utf16 "\n"))
    else out

/-- The slot `on_savePlaylist_clicked`.  `filename` is what the file dialog
returns, `writable` whether that file can be opened for writing.  The result is
the window and the text written to the file, if any. -/
def on_savePlaylist_clicked (env : Qt Url) (w : MainWindow Url) (filename : QString)
    (writable : Bool) : MainWindow Url × Option QString :=
  if filename.isEmpty then (w, none)
  else if writable then
    let out := (utf16 "Simple Playlist Format 1.0\n")
    let out := saveLoop env w.playlist w.playlist.media.length 0 out
    (w.messageBox "Playlist successfully saved." .Information, some out)
  else
    (w.messageBox "An error occurred while saving the playlist." .Critical, none)

/-- The slot `on_removeTracks_clicked`; `selection` holds the rows of
`selectedIndexes()`.  `QList::first()` requires a non-empty list: on an empty
selection the call has no defined result (`none`). -/
def on_removeTracks_clicked (w : MainWindow Url) (selection : List Int) :
    Option (MainWindow Url) :=
  match selection.head? with
  | none => none
  | some row =>
    match w.playlist.removeMedia row with
    | .ok pl => some { w with playlist := pl }
    | .error _ => some w

/-- The slot `on_previous_clicked`. -/
def on_previous_clicked (w : MainWindow Url) (draw : Nat) : MainWindow Url :=
  match w.playlist.advance .Previous draw with
  | .ok pl => { w with playlist := pl }
  | .error _ => w

/-- The slot `on_next_clicked`. -/
def on_next_clicked (w : MainWindow Url) (draw : Nat) : MainWindow Url :=
  match w.playlist.advance .Next draw with
  | .ok pl => { w with playlist := pl }
  | .error _ => w

/-- The slot `on_mute_clicked`. -/
def on_mute_clicked (w : MainWindow Url) : MainWindow Url :=
  if w.player.muted then { w with player := w.player.setMuted false }
  else { w with player := w.player.setMuted true }

/-- The slot `on_volume_valueChanged(int)`. -/
def on_volume_valueChanged (w : MainWindow Url) (volume : Int) : MainWindow Url :=
  if volume = 0 then { w with player := w.player.setMuted true }
  else { w with player := (w.player.setMuted false).setVolume volume }

/-- The message box of an invalid header. -/
def invalidHeaderBox : Effect Url :=
  .messageBox (utf16 "The selected file is not a valid SPF file.") .Critical

/-- The entry that the batch append is said to add for a filename: the local
file when the filename names an existing file, otherwise the URI when the
filename parses as a valid one, otherwise nothing. -/
def entryFor (env : Qt Url) (filename : QString) : Option Url :=
  if env.fileExists filename then some (env.fromLocalFile (env.absoluteFilePath filename))
  else if env.isValid (env.url filename) then some (env.url filename)
  else none

/-- The playlist mutation that `appendPlaylist` performs for a filename, if
any. -/
def mutationFor (env : Qt Url) (filename : QString) : Option (Effect Url) :=
  if env.fileExists filename then
    if env.toLower (env.suffix filename) = m3u then
      some (.load (env.fromLocalFile (env.absoluteFilePath filename)))
    else some (.addMedia (env.fromLocalFile (env.absoluteFilePath filename)))
  else if env.isValid (env.url filename) then some (.addMedia (env.url filename))
  else none

end MainWindow

/-- Whether an effect reads the text stream. -/
def Effect.isRead {Url : Type} : Effect Url → Bool
  | .readLine _ => true
  | _ => false

/-- Whether an effect mutates the playlist. -/
def Effect.isMutation {Url : Type} : Effect Url → Bool
  | .addMedia _ => true
  | .load _ => true
  | _ => false

/-- Lines of text, each followed by a newline. -/
def joinLines (lines : List QString) : QString :=
  (lines.map (fun l => l ++ [LF])).flatten

/-- The newline-terminated lines of a text, in order and without their
newline, and the text that follows the last newline. -/
def splitLines : QString → List QString × QString
  | [] => ([], [])
  | c :: cs =>
    if c = LF then ([] :: (splitLines cs).1, (splitLines cs).2)
    else match (splitLines cs).1 with
      | [] => ([], c :: (splitLines cs).2)
      | l :: ls => ((c :: l) :: ls, (splitLines cs).2)

/-! ## A concrete toolkit: POSIX paths and simple URLs -/

/-- A URL as its scheme, authority and path. -/
structure SimpleUrl where
  scheme : QString
  authority : QString
  path : QString
  deriving DecidableEq, Repr

/-- Splits a text at its first "://", if it has one. -/
def splitScheme : QString → Option (QString × QString)
  | [] => none
  | c :: rest =>
    if c = colon ∧ rest.take 2 = [slash, slash] then some ([], rest.drop 2)
    else (splitScheme rest).map (fun p => (c :: p.1, p.2))

/-- Parses "scheme://authority/path", and takes any other text as a relative
reference that is all path. -/
def parseUrl (s : QString) : SimpleUrl :=
  match splitScheme s with
  | some (scheme, rest) =>
    { scheme := scheme
      authority := rest.takeWhile (fun c => c != slash)
      path := rest.dropWhile (fun c => c != slash) }
  | none => { scheme := [], authority := [], path := s }

/-- A file system: the working directory, the absolute paths of the files that
exist, and the entries of the playlist files among them. -/
structure FileSystem where
  cwd : QString
  files : List QString
  playlists : List (QString × List QString)

/-- The absolute path of a name: the name itself when it starts at the root,
otherwise the name below the working directory (one separator between the
two, also when the working directory is the root). -/
def FileSystem.absolute (fs : FileSystem) (name : QString) : QString :=
  if name.head? = some slash then name
  else if fs.cwd.getLast? = some slash then fs.cwd ++ name
  else fs.cwd ++ slash :: name

/-- The last component of a path. -/
def fileName (name : QString) : QString :=
  (name.reverse.takeWhile (fun c => c != slash)).reverse

/-- The suffix of a file name: what follows its last dot. -/
def suffixOf (name : QString) : QString :=
  if (fileName name).contains dot then
    ((fileName name).reverse.takeWhile (fun c => c != dot)).reverse
  else []

/-- The lower case of a code unit: the letters A to Z become a to z. -/
def lowerUnit (c : QChar) : QChar :=
  if 65 ≤ c.val ∧ c.val ≤ 90 then Fin.ofNat (c.val + 32) else c

/-- The toolkit services over a POSIX file system and simple URLs. -/
def posixQt (fs : FileSystem) : Qt SimpleUrl where
  fileExists name := !name.isEmpty && fs.files.contains (fs.absolute name)
  absoluteFilePath name := fs.absolute name
  suffix := suffixOf
  filePath name := name
  toLower name := name.map lowerUnit
  fromLocalFile path := { scheme := (utf16 "file"), authority := [], path := path }
  url := parseUrl
  isValid u := !(u.scheme.isEmpty && u.authority.isEmpty && u.path.isEmpty)
  path u := u.path
  playlistLoad u media := media ++ ((fs.playlists.lookup u.path).getD []).map parseUrl

/-- A file system with one audio file and one playlist file of two entries. -/
def sampleFiles : FileSystem where
  cwd := (utf16 "/home/user")
  files := [(utf16 "/real/file.mp3"), (utf16 "/music/list.m3u")]
  playlists := [((utf16 "/music/list.m3u"),
    [(utf16 "http://example.com/a.mp3"), (utf16 "http://example.com/b.mp3")])]

/-- A file system with one audio file whose name holds a newline. -/
def newlineFiles : FileSystem where
  cwd := utf16 "/home/user"
  files := [utf16 "/tmp/a\nb.mp3"]
  playlists := []

/-- Widgets as after `setupUi`. -/
def sampleUi : Ui where
  duration := { minimum := 0, maximum := 7200, value := 0, sliderDown := false }
  currentDuration := .literal (utf16 "--:--")
  maxDuration := .literal (utf16 "--:--")
  volume := { minimum := 0, maximum := 100, value := 50, sliderDown := false }
  volumeDisplay := 50
  mute := .SP_MediaVolume

/-- A player at volume 50 on a medium of two hours. -/
def samplePlayer : QMediaPlayer where
  muted := false
  volume := 50
  duration := 7200000

/-- The window right after construction. -/
def emptyWindow : MainWindow SimpleUrl := MainWindow.new samplePlayer sampleUi

/-- A window whose playlist holds the given items. -/
def windowOf (items : List SimpleUrl) (current : Option Int) : MainWindow SimpleUrl :=
  { emptyWindow with
    playlist := { media := items, currentIndex := current, playbackMode := .Sequential } }

/-- Three tracks A, B, C. -/
def threeTracks : List SimpleUrl :=
  [parseUrl (utf16 "http://example.com/A"), parseUrl (utf16 "http://example.com/B"),
   parseUrl (utf16 "http://example.com/C")]

/-! ## Reading lines -/

/-- Reading a line from a text that is not at its end consumes at least one
character. -/
theorem readLine_rest_length (s : QString) (h : s ≠ []) :
    (readLine s).2.length < s.length := by
  have hd : (s.dropWhile (fun c => c != LF)).length ≤ s.length :=
    (List.dropWhile_sublist _).length_le
  have hpos : 0 < s.length := List.length_pos.mpr h
  simp only [readLine, List.length_drop]
  omega

/-- The reading loop finishes within as many iterations as the text has
characters, and only adds lines to those already read. -/
theorem readFilenames_total (fuel : Nat) :
    ∀ (s : QString) (acc : List QString), s.length ≤ fuel →
      ∃ lines, readFilenames fuel s acc = some (acc ++ lines) := by
  induction fuel with
  | zero =>
    intro s acc h
    have hs : s = [] := List.length_eq_zero.mp (Nat.le_zero.mp h)
    subst hs
    exact ⟨[], by simp [readFilenames, atEnd]⟩
  | succ n ih =>
    intro s acc h
    cases hs : s with
    | nil => exact ⟨[], by simp [readFilenames, atEnd]⟩
    | cons c cs =>
      have hlt := readLine_rest_length (c :: cs) (by simp)
      have hle : (readLine (c :: cs)).2.length ≤ n := by
        have : (c :: cs).length ≤ n + 1 := hs ▸ h
        omega
      obtain ⟨lines, hl⟩ := ih (readLine (c :: cs)).2 (acc ++ [(readLine (c :: cs)).1]) hle
      refine ⟨(readLine (c :: cs)).1 :: lines, ?_⟩
      rw [readFilenames]
      simp only [atEnd, List.isEmpty_cons, Bool.false_eq_true, if_false]
      rw [hl]
      simp

/-- A text is its first line, or its first line, a newline and a rest. -/
theorem split_at_newline (s : QString) :
    s.takeWhile (fun c => c != LF) = s
      ∨ ∃ rest, s = s.takeWhile (fun c => c != LF) ++ LF :: rest := by
  induction s with
  | nil => exact Or.inl rfl
  | cons c cs ih =>
    by_cases hc : c = LF
    · exact Or.inr ⟨cs, by simp [hc]⟩
    · rcases ih with h | ⟨r, h⟩
      · exact Or.inl (by simp [List.takeWhile_cons, hc, h])
      · refine Or.inr ⟨r, ?_⟩
        simp only [List.takeWhile_cons, bne_iff_ne, ne_eq, hc, not_false_eq_true, if_true,
          List.cons_append, List.cons.injEq, true_and]
        exact h

/-- A line is the header once its end-of-line character is removed exactly
when it is the header, or the header and a carriage return. -/
theorem chopCR_eq_header_iff (line : QString) :
    chopCR line = spfHeader ↔ line = spfHeader ∨ line = spfHeader ++ [CR] := by
  constructor
  · intro h
    unfold chopCR at h
    split at h
    · rename_i hlast
      right
      rw [← h]
      exact (List.dropLast_append_getLast? _ (by simp [hlast])).symm
    · exact Or.inl h
  · rintro (h | h) <;> subst h <;> decide

/-- No character of the header is a newline. -/
theorem spfHeader_no_newline : ∀ c ∈ spfHeader, (c != LF) = true := by
  have h : spfHeader.all (fun c => c != LF) = true := by decide
  exact List.all_eq_true.mp h

/-- The first line read is the header exactly when the text is the header
followed by nothing, by a final carriage return, or by a line terminator. -/
theorem readLine_eq_header_iff (text : QString) :
    (readLine text).1 = spfHeader ↔
      text = spfHeader ∨ text = spfHeader ++ [CR]
        ∨ (∃ rest, text = spfHeader ++ LF :: rest)
        ∨ (∃ rest, text = spfHeader ++ CR :: LF :: rest) := by
  constructor
  · intro h
    have hl := (chopCR_eq_header_iff _).mp h
    rcases split_at_newline text with ht | ⟨r, ht⟩
    · rw [ht] at hl
      rcases hl with hl | hl
      · exact Or.inl hl
      · exact Or.inr (Or.inl hl)
    · rcases hl with hl | hl
      · rw [hl] at ht
        exact Or.inr (Or.inr (Or.inl ⟨r, ht⟩))
      · rw [hl] at ht
        exact Or.inr (Or.inr (Or.inr ⟨r, by simpa using ht⟩))
  · rintro (h | h | ⟨r, h⟩ | ⟨r, h⟩)
    · subst h; decide
    · subst h; decide
    · subst h
      simp only [readLine, List.takeWhile_append_of_pos spfHeader_no_newline]
      simp only [List.takeWhile_cons, bne_self_eq_false, Bool.false_eq_true, if_false,
        List.append_nil]
      decide
    · subst h
      simp only [readLine, List.takeWhile_append_of_pos spfHeader_no_newline]
      have hcr : CR ≠ LF := by decide
      have : List.takeWhile (fun c => c != LF) (CR :: LF :: r) = [CR] := by
        simp [List.takeWhile_cons, hcr]
      rw [this]
      decide

/-! ## Appending to the playlist -/

section Append

variable {Url : Type}

/-- One filename adds its mutation, if any, to the record of effects. -/
theorem appendOne_log (env : Qt Url) (w : MainWindow Url) (f : QString) :
    (MainWindow.appendOne env w f).log = w.log ++ (MainWindow.mutationFor env f).toList := by
  unfold MainWindow.appendOne MainWindow.mutationFor
  by_cases h1 : env.fileExists f = true
  · by_cases h2 : env.toLower (env.suffix f) = m3u
    · simp [h1, h2, MainWindow.playlistLoad]
    · simp [h1, h2, MainWindow.addMedia]
  · by_cases h3 : env.isValid (env.url f) = true
    · simp [h1, h3, MainWindow.addMedia]
    · simp [h1, h3]

/-- One filename writes neither the widgets, nor the player, nor the current
index, nor the playback mode. -/
theorem appendOne_frame (env : Qt Url) (w : MainWindow Url) (f : QString) :
    (MainWindow.appendOne env w f).ui = w.ui
      ∧ (MainWindow.appendOne env w f).player = w.player
      ∧ (MainWindow.appendOne env w f).playlist.currentIndex = w.playlist.currentIndex
      ∧ (MainWindow.appendOne env w f).playlist.playbackMode = w.playlist.playbackMode := by
  unfold MainWindow.appendOne
  by_cases h1 : env.fileExists f = true
  · by_cases h2 : env.toLower (env.suffix f) = m3u
    · simp [h1, h2, MainWindow.playlistLoad]
    · simp [h1, h2, MainWindow.addMedia, QMediaPlaylist.addMedia]
  · by_cases h3 : env.isValid (env.url f) = true
    · simp [h1, h3, MainWindow.addMedia, QMediaPlaylist.addMedia]
    · simp [h1, h3]

/-- The playlist after one filename does not depend on the record of effects. -/
theorem appendOne_playlist_of_log (env : Qt Url) (w : MainWindow Url) (l : List (Effect Url))
    (f : QString) :
    (MainWindow.appendOne env { w with log := l } f).playlist
      = (MainWindow.appendOne env w f).playlist := by
  unfold MainWindow.appendOne
  by_cases h1 : env.fileExists f = true
  · by_cases h2 : env.toLower (env.suffix f) = m3u
    · simp [h1, h2, MainWindow.playlistLoad]
    · simp [h1, h2, MainWindow.addMedia]
  · by_cases h3 : env.isValid (env.url f) = true
    · simp [h1, h3, MainWindow.addMedia]
    · simp [h1, h3]

/-- Two windows with the same playlist have the same playlist after the batch
append. -/
theorem appendPlaylist_playlist_congr (env : Qt Url) (fs : List QString) :
    ∀ (w1 w2 : MainWindow Url), w1.playlist = w2.playlist →
      (w1.appendPlaylist env fs).playlist = (w2.appendPlaylist env fs).playlist := by
  induction fs with
  | nil => intro w1 w2 h; exact h
  | cons f fs ih =>
    intro w1 w2 h
    simp only [MainWindow.appendPlaylist, List.foldl_cons]
    apply ih
    obtain ⟨ui1, player1, playlist1, log1⟩ := w1
    obtain ⟨ui2, player2, playlist2, log2⟩ := w2
    simp only at h
    subst h
    unfold MainWindow.appendOne
    by_cases h1 : env.fileExists f = true
    · by_cases h2 : env.toLower (env.suffix f) = m3u
      · simp [h1, h2, MainWindow.playlistLoad]
      · simp [h1, h2, MainWindow.addMedia]
    · by_cases h3 : env.isValid (env.url f) = true
      · simp [h1, h3, MainWindow.addMedia]
      · simp [h1, h3]

/-- The batch append adds the mutations of its filenames, in order, to the
record of effects. -/
theorem appendPlaylist_log (env : Qt Url) (fs : List QString) :
    ∀ w : MainWindow Url,
      (w.appendPlaylist env fs).log = w.log ++ fs.filterMap (MainWindow.mutationFor env) := by
  induction fs with
  | nil => intro w; simp [MainWindow.appendPlaylist]
  | cons f fs ih =>
    intro w
    have h := ih (MainWindow.appendOne env w f)
    simp only [MainWindow.appendPlaylist, List.foldl_cons] at h ⊢
    rw [h, appendOne_log]
    cases hm : MainWindow.mutationFor env f <;> simp [List.filterMap_cons, hm]

/-- The batch append writes neither the widgets, nor the player, nor the
current index, nor the playback mode. -/
theorem appendPlaylist_frame (env : Qt Url) (fs : List QString) :
    ∀ w : MainWindow Url,
      (w.appendPlaylist env fs).ui = w.ui
        ∧ (w.appendPlaylist env fs).player = w.player
        ∧ (w.appendPlaylist env fs).playlist.currentIndex = w.playlist.currentIndex
        ∧ (w.appendPlaylist env fs).playlist.playbackMode = w.playlist.playbackMode := by
  induction fs with
  | nil => intro w; simp [MainWindow.appendPlaylist]
  | cons f fs ih =>
    intro w
    have h := ih (MainWindow.appendOne env w f)
    have h1 := appendOne_frame env w f
    simp only [MainWindow.appendPlaylist, List.foldl_cons] at h ⊢
    exact ⟨h.1.trans h1.1, h.2.1.trans h1.2.1, h.2.2.1.trans h1.2.2.1, h.2.2.2.trans h1.2.2.2⟩

/-- The effects of the batch append are playlist mutations, none a read. -/
theorem mutationFor_isMutation (env : Qt Url) (fs : List QString) :
    ∀ e ∈ fs.filterMap (MainWindow.mutationFor env), e.isMutation = true ∧ e.isRead = false := by
  intro e he
  obtain ⟨f, _, hf⟩ := List.mem_filterMap.mp he
  unfold MainWindow.mutationFor at hf
  split at hf
  · split at hf <;> (cases hf; exact ⟨rfl, rfl⟩)
  · split at hf
    · cases hf; exact ⟨rfl, rfl⟩
    · cases hf

/-- Recording the lines read adds one read per line to the record of effects
and writes nothing else. -/
theorem emit_reads (lines : List QString) :
    ∀ w : MainWindow Url,
      lines.foldl (fun w l => w.emit (.readLine l)) w
        = { w with log := w.log ++ lines.map Effect.readLine } := by
  induction lines with
  | nil => intro w; simp
  | cons l ls ih =>
    intro w
    simp only [List.foldl_cons, List.map_cons]
    rw [ih]
    simp [MainWindow.emit]

end Append

/-! ## Loading a playlist file -/

section Load

variable {Url : Type}

/-- On a text whose first line is not the header the load handler records the
read, shows the message box of an invalid header, and returns. -/
theorem load_invalid (env : Qt Url) (w : MainWindow Url) (filename text : QString)
    (hf : filename ≠ []) (hh : (readLine text).1 ≠ spfHeader) :
    w.on_loadPlaylist_clicked env filename (some text)
      = some { w with log := w.log ++ [.readLine (readLine text).1, MainWindow.invalidHeaderBox] } := by
  have hfe : filename.isEmpty = false := by
    cases filename with
    | nil => exact absurd rfl hf
    | cons c cs => rfl
  simp [MainWindow.on_loadPlaylist_clicked, hfe, hh, MainWindow.messageBox, MainWindow.emit,
    MainWindow.invalidHeaderBox]

/-- On a text whose first line is the header the load handler reads every
remaining line and then hands them to `appendPlaylist`. -/
theorem load_valid (env : Qt Url) (w : MainWindow Url) (filename text : QString)
    (hf : filename ≠ []) (hh : (readLine text).1 = spfHeader) :
    ∃ filenames,
      readFilenames (readLine text).2.length (readLine text).2 [] = some filenames
        ∧ w.on_loadPlaylist_clicked env filename (some text)
          = some (MainWindow.appendPlaylist env
              { w with log := w.log ++ Effect.readLine spfHeader :: filenames.map Effect.readLine }
              filenames) := by
  have hfe : filename.isEmpty = false := by
    cases filename with
    | nil => exact absurd rfl hf
    | cons c cs => rfl
  obtain ⟨lines, hl⟩ := readFilenames_total (readLine text).2.length (readLine text).2 [] le_rfl
  refine ⟨[] ++ lines, hl, ?_⟩
  simp only [MainWindow.on_loadPlaylist_clicked, hfe, Bool.false_eq_true, if_false, hh,
    ne_eq, not_true_eq_false, hl, emit_reads]
  simp [MainWindow.emit]

/-- On a text whose first line is the header the load handler returns: its
effects are the reads of all lines followed by the mutations of
`appendPlaylist`, and its playlist is that of `appendPlaylist` on the lines. -/
theorem load_valid_log (env : Qt Url) (w : MainWindow Url) (filename text : QString)
    (hf : filename ≠ []) (hh : (readLine text).1 = spfHeader) :
    ∃ w2 filenames,
      w.on_loadPlaylist_clicked env filename (some text) = some w2
        ∧ readFilenames (readLine text).2.length (readLine text).2 [] = some filenames
        ∧ w2.log = w.log ++ (Effect.readLine spfHeader :: filenames.map Effect.readLine)
            ++ filenames.filterMap (MainWindow.mutationFor env)
        ∧ w2.playlist = (w.appendPlaylist env filenames).playlist
        ∧ w2.ui = w.ui ∧ w2.player = w.player := by
  obtain ⟨filenames, hr, hl⟩ := load_valid env w filename text hf hh
  refine ⟨_, filenames, hl, hr, ?_, ?_, ?_, ?_⟩
  · rw [appendPlaylist_log]
  · exact appendPlaylist_playlist_congr env filenames _ _ rfl
  · exact (appendPlaylist_frame env filenames _).1
  · exact (appendPlaylist_frame env filenames _).2.1

/-- The message box of an invalid header is not among reads and mutations. -/
theorem invalidHeaderBox_not_mem (env : Qt Url) (header : QString) (filenames : List QString) :
    (MainWindow.invalidHeaderBox : Effect Url) ∉
      (Effect.readLine header :: filenames.map Effect.readLine)
        ++ filenames.filterMap (MainWindow.mutationFor env) := by
  intro h
  rcases List.mem_append.mp h with h | h
  · rcases List.mem_cons.mp h with h | h
    · cases h
    · obtain ⟨l, _, hl⟩ := List.mem_map.mp h
      cases hl
  · have := (mutationFor_isMutation env filenames _ h).1
    simp [MainWindow.invalidHeaderBox, Effect.isMutation] at this

/-- C2: for every text of a file that opens, the load handler reports an
invalid header (its message box is among the effects of the call) if and only
if the first line read is not exactly the header "Simple Playlist Format 1.0",
that is unless the text is the header followed by nothing or by a line
terminator; the empty text and the text "not the right header\n" are both
reported, and the call always returns. -/
theorem load_header_validation {Url : Type} (env : Qt Url) (w : MainWindow Url)
    (filename text : QString) (hf : filename ≠ []) :
    (∃ w2, w.on_loadPlaylist_clicked env filename (some text) = some w2
        ∧ (MainWindow.invalidHeaderBox ∈ w2.log.drop w.log.length
            ↔ (readLine text).1 ≠ spfHeader))
      ∧ ((readLine text).1 ≠ spfHeader ↔
          ¬ (text = spfHeader ∨ text = spfHeader ++ [CR]
              ∨ (∃ rest, text = spfHeader ++ LF :: rest)
              ∨ (∃ rest, text = spfHeader ++ CR :: LF :: rest)))
      ∧ (∃ w2, w.on_loadPlaylist_clicked env filename (some []) = some w2
          ∧ MainWindow.invalidHeaderBox ∈ w2.log.drop w.log.length)
      ∧ (∃ w2, w.on_loadPlaylist_clicked env filename (some (utf16 "not the right header\n"))
            = some w2
          ∧ MainWindow.invalidHeaderBox ∈ w2.log.drop w.log.length) := by
  have hbad : ∀ t : QString, (readLine t).1 ≠ spfHeader →
      ∃ w2, w.on_loadPlaylist_clicked env filename (some t) = some w2
        ∧ MainWindow.invalidHeaderBox ∈ w2.log.drop w.log.length := by
    intro t ht
    exact ⟨_, load_invalid env w filename t hf ht, by simp⟩
  refine ⟨?_, ?_, hbad [] (by decide), hbad _ (by decide)⟩
  · by_cases hh : (readLine text).1 = spfHeader
    · obtain ⟨w2, filenames, hl, _, hlog, _⟩ := load_valid_log env w filename text hf hh
      refine ⟨w2, hl, ?_⟩
      constructor
      · intro hmem
        rw [hlog, List.append_assoc, List.drop_left] at hmem
        exact absurd hmem (invalidHeaderBox_not_mem env _ _)
      · intro hne
        exact absurd hh hne
    · obtain ⟨w2, hl, hmem⟩ := hbad text hh
      exact ⟨w2, hl, fun _ => hh, fun _ => hmem⟩
  · exact not_congr (readLine_eq_header_iff text)

/-- C2 on the text of a playlist with one track, loaded into an empty
playlist: the header is accepted. -/
theorem load_header_validation_witness :
    ((utf16 "list.spf") ≠ []) ∧
      ∃ w2, emptyWindow.on_loadPlaylist_clicked (posixQt sampleFiles) (utf16 "list.spf")
          (some (utf16 "Simple Playlist Format 1.0\n/real/file.mp3\n")) = some w2
        ∧ (MainWindow.invalidHeaderBox ∈ w2.log.drop emptyWindow.log.length
            ↔ (readLine (utf16 "Simple Playlist Format 1.0\n/real/file.mp3\n")).1 ≠ spfHeader) :=
  ⟨by decide,
    (load_header_validation (posixQt sampleFiles) emptyWindow (utf16 "list.spf")
      (utf16 "Simple Playlist Format 1.0\n/real/file.mp3\n") (by decide)).1⟩

/-- C3: when the header is invalid the load handler leaves the playlist (its
items, its current index, its mode), the widgets and the player exactly as
they were; when the header is valid it returns, and its effects are first the
reads of the header and of every remaining line, then only mutations of the
playlist: no line is read after the first mutation, and the playlist is the
one `appendPlaylist` builds from the complete sequence of lines. -/
theorem load_all_or_nothing {Url : Type} (env : Qt Url) (w : MainWindow Url)
    (filename text : QString) (hf : filename ≠ []) :
    ((readLine text).1 ≠ spfHeader →
        ∃ w2, w.on_loadPlaylist_clicked env filename (some text) = some w2
          ∧ w2.playlist = w.playlist ∧ w2.ui = w.ui ∧ w2.player = w.player)
      ∧ ((readLine text).1 = spfHeader →
        ∃ w2 filenames mutations,
          w.on_loadPlaylist_clicked env filename (some text) = some w2
            ∧ readFilenames (readLine text).2.length (readLine text).2 [] = some filenames
            ∧ w2.log = w.log ++ (Effect.readLine spfHeader :: filenames.map Effect.readLine)
                ++ mutations
            ∧ (∀ e ∈ mutations, e.isMutation = true ∧ e.isRead = false)
            ∧ w2.playlist = (w.appendPlaylist env filenames).playlist) := by
  constructor
  · intro hh
    exact ⟨_, load_invalid env w filename text hf hh, rfl, rfl, rfl⟩
  · intro hh
    obtain ⟨w2, filenames, hl, hr, hlog, hpl, _⟩ := load_valid_log env w filename text hf hh
    exact ⟨w2, filenames, _, hl, hr, hlog, mutationFor_isMutation env filenames, hpl⟩

/-- C3 on a text with a wrong header, loaded over the playlist A, B, C: the
playlist is as it was. -/
theorem load_all_or_nothing_witness :
    ((utf16 "list.spf") ≠ [] ∧ (readLine (utf16 "not the right header\n")).1 ≠ spfHeader)
      ∧ ∃ w2, (windowOf threeTracks (some 1)).on_loadPlaylist_clicked (posixQt sampleFiles)
            (utf16 "list.spf") (some (utf16 "not the right header\n")) = some w2
          ∧ w2.playlist = (windowOf threeTracks (some 1)).playlist
          ∧ w2.ui = (windowOf threeTracks (some 1)).ui
          ∧ w2.player = (windowOf threeTracks (some 1)).player :=
  ⟨⟨by decide, by decide⟩,
    (load_all_or_nothing (posixQt sampleFiles) (windowOf threeTracks (some 1)) (utf16 "list.spf")
      (utf16 "not the right header\n") (by decide)).1 (by decide)⟩

/-- C5: loading a file that consists of the header line only returns with
the playlist, the widgets and the player as they were; the only effect is the
read of the header: no message box is shown and no track is added, and the
sequence of locator lines read is empty. -/
theorem load_header_only {Url : Type} (env : Qt Url) (w : MainWindow Url)
    (filename : QString) (hf : filename ≠ []) :
    w.on_loadPlaylist_clicked env filename (some (utf16 "Simple Playlist Format 1.0\n"))
        = some { w with log := w.log ++ [.readLine spfHeader] }
      ∧ readFilenames (readLine (utf16 "Simple Playlist Format 1.0\n")).2.length
          (readLine (utf16 "Simple Playlist Format 1.0\n")).2 [] = some [] := by
  have hh : (readLine (utf16 "Simple Playlist Format 1.0\n")).1 = spfHeader := by decide
  have hrest : (readLine (utf16 "Simple Playlist Format 1.0\n")).2 = [] := by decide
  obtain ⟨filenames, hr, hl⟩ :=
    load_valid env w filename (utf16 "Simple Playlist Format 1.0\n") hf hh
  rw [hrest] at hr
  have hnil : filenames = [] := by
    simp [readFilenames, atEnd] at hr
    exact hr
  subst hnil
  refine ⟨?_, by decide⟩
  rw [hl]
  simp [MainWindow.appendPlaylist]

/-- C5 on the playlist A, B, C: the three items stay, none is added. -/
theorem load_header_only_witness :
    ((utf16 "list.spf") ≠ [])
      ∧ ((windowOf threeTracks (some 1)).on_loadPlaylist_clicked (posixQt sampleFiles)
          (utf16 "list.spf") (some (utf16 "Simple Playlist Format 1.0\n"))).map
            (fun w => w.playlist.media) = some threeTracks := by
  refine ⟨by decide, ?_⟩
  rw [(load_header_only (posixQt sampleFiles) (windowOf threeTracks (some 1)) (utf16 "list.spf")
    (by decide)).1]
  rfl

end Load

/-! ## Saving a playlist file -/

section Save

variable {Url : Type}

/-- All but the first character: `path.right(path.length() - 1)`. -/
theorem right_length_pred (s : QString) : right s ((s.length : Int) - 1) = s.drop 1 := by
  unfold right
  cases s with
  | nil => simp
  | cons c cs =>
    have h1 : ¬ (((c :: cs).length : Int) - 1 < 0 ∨ ((c :: cs).length : Int) ≤ ((c :: cs).length : Int) - 1) := by
      simp only [List.length_cons]
      omega
    rw [if_neg h1]
    congr 1
    simp only [List.length_cons]
    omega

/-- The line written for an item of the playlist. -/
theorem savedLine_of_get (env : Qt Url) (pl : QMediaPlaylist Url) (j : Nat) (u : Url)
    (h : pl.media.get? j = some u) :
    MainWindow.savedLine env pl (j : Int) = (env.filePath (env.path u)).drop 1 := by
  unfold MainWindow.savedLine QMediaPlaylist.mediaAt
  simp only [Int.natCast_nonneg, if_true, Int.toNat_ofNat, h]
  exact right_length_pred _

/-- The save loop from item `j` on writes one line for each remaining item. -/
theorem saveLoop_eq (env : Qt Url) (pl : QMediaPlaylist Url) (fuel : Nat) :
    ∀ (j : Nat) (out : QString), j + fuel = pl.media.length →
      MainWindow.saveLoop env pl fuel (j : Int) out
        = out ++ joinLines ((pl.media.drop j).map (fun u => (env.filePath (env.path u)).drop 1)) := by
  induction fuel with
  | zero =>
    intro j out h
    have hj : pl.media.length ≤ j := by omega
    simp [MainWindow.saveLoop, List.drop_eq_nil_of_le hj, joinLines]
  | succ n ih =>
    intro j out h
    have hj : j < pl.media.length := by omega
    have hget : pl.media.get? j = some (pl.media.get ⟨j, hj⟩) := List.get?_eq_get hj
    have hdrop : pl.media.drop j = pl.media.get ⟨j, hj⟩ :: pl.media.drop (j + 1) :=
      List.drop_eq_getElem_cons hj
    have hcond : (j : Int) < pl.mediaCount := by
      unfold QMediaPlaylist.mediaCount
      exact_mod_cast hj
    rw [MainWindow.saveLoop, if_pos hcond, savedLine_of_get env pl j _ hget]
    have hnext : ((j : Int) + 1) = ((j + 1 : Nat) : Int) := by push_cast; rfl
    rw [hnext, ih (j + 1) _ (by omega), hdrop]
    have hnl : (utf16 "\n") = [LF] := rfl
    simp only [joinLines, List.map_cons, List.flatten_cons, List.append_assoc, hnl]

/-- The text written by the save handler: the header line and one line for
each item, in order. -/
theorem save_text (env : Qt Url) (w : MainWindow Url) (filename : QString) (hf : filename ≠ []) :
    w.on_savePlaylist_clicked env filename true
      = ({ w with log := w.log ++ [.messageBox (utf16 "Playlist successfully saved.") .Information] },
         some (joinLines (spfHeader ::
           w.playlist.media.map (fun u => (env.filePath (env.path u)).drop 1)))) := by
  have hfe : filename.isEmpty = false := by
    cases filename with
    | nil => exact absurd rfl hf
    | cons c cs => rfl
  have hloop := saveLoop_eq env w.playlist w.playlist.media.length 0
    (utf16 "Simple Playlist Format 1.0\n") (by omega)
  simp only [Nat.cast_zero, List.drop_zero] at hloop
  simp only [MainWindow.on_savePlaylist_clicked, hfe, Bool.false_eq_true, if_false, if_true,
    hloop, MainWindow.messageBox, MainWindow.emit]
  have hhead : (utf16 "Simple Playlist Format 1.0\n") = spfHeader ++ [LF] := by decide
  rw [hhead]
  simp [joinLines]

/-- A line without a newline, its newline, and a rest: the line is the first
of the newline-terminated lines. -/
theorem splitLines_line (l rest : QString) (h : LF ∉ l) :
    splitLines (l ++ LF :: rest) = (l :: (splitLines rest).1, (splitLines rest).2) := by
  induction l with
  | nil => simp [splitLines]
  | cons c l ih =>
    have hc : c ≠ LF := fun hc => h (hc ▸ List.mem_cons_self _ _)
    have hl : LF ∉ l := fun hl => h (List.mem_cons_of_mem _ hl)
    rw [List.cons_append, splitLines, if_neg hc, ih hl]

/-- Lines without a newline, each followed by a newline, are the
newline-terminated lines of their text, and nothing follows the last. -/
theorem splitLines_joinLines (lines : List QString) (h : ∀ l ∈ lines, LF ∉ l) :
    splitLines (joinLines lines) = (lines, []) := by
  induction lines with
  | nil => rfl
  | cons l ls ih =>
    have hjoin : joinLines (l :: ls) = l ++ LF :: joinLines ls := by
      simp [joinLines]
    rw [hjoin, splitLines_line l _ (h l (List.mem_cons_self _ _)),
      ih (fun m hm => h m (List.mem_cons_of_mem _ hm))]

/-- The header holds no newline. -/
theorem LF_not_mem_spfHeader : LF ∉ spfHeader := by
  intro h
  have := spfHeader_no_newline LF h
  simp at this

/-- C6, as stated, fails: the playlist of the one existing file
"/tmp/a\nb.mp3" (n = 1) is saved as the header and the path written verbatim
without its first character, "tmp/a\nb.mp3": the text has three
newline-terminated lines, not n+1 = 2, and its lines are not the header and
one line per item. -/
theorem save_text_lines_counterexample :
    (emptyWindow.appendPlaylist (posixQt newlineFiles) [utf16 "/tmp/a\nb.mp3"]).playlist.media
        = [{ scheme := utf16 "file", authority := [], path := utf16 "/tmp/a\nb.mp3" }]
      ∧ ((emptyWindow.appendPlaylist (posixQt newlineFiles)
            [utf16 "/tmp/a\nb.mp3"]).on_savePlaylist_clicked (posixQt newlineFiles)
              (utf16 "list.spf") true).2
          = some (utf16 "Simple Playlist Format 1.0\ntmp/a\nb.mp3\n")
      ∧ splitLines (utf16 "Simple Playlist Format 1.0\ntmp/a\nb.mp3\n")
          = ([spfHeader, utf16 "tmp/a", utf16 "b.mp3"], [])
      ∧ (splitLines (utf16 "Simple Playlist Format 1.0\ntmp/a\nb.mp3\n")).1.length ≠ 1 + 1
      ∧ (splitLines (utf16 "Simple Playlist Format 1.0\ntmp/a\nb.mp3\n")).1
          ≠ spfHeader ::
              (emptyWindow.appendPlaylist (posixQt newlineFiles)
                [utf16 "/tmp/a\nb.mp3"]).playlist.media.map
                  (fun u => ((posixQt newlineFiles).path u).drop 1) := by
  decide

/-- C6, amended: for a playlist of n items none of whose URL paths holds a
newline after its first character, the text the save handler writes consists
of exactly n+1 newline-terminated lines and nothing after them: the header
"Simple Playlist Format 1.0", then, in item order, one line per item, which is
the path of the item's URL (as `QFileInfo::filePath` gives it back, here
unchanged) without its first character, a character being one `QChar`; the
playlist, the widgets and the player stay as they were. -/
theorem save_text_shape {Url : Type} (env : Qt Url) (w : MainWindow Url) (filename : QString)
    (hf : filename ≠ [])
    (hpath : ∀ u ∈ w.playlist.media, env.filePath (env.path u) = env.path u)
    (hnl : ∀ u ∈ w.playlist.media, LF ∉ (env.path u).drop 1) :
    ∃ text,
      (w.on_savePlaylist_clicked env filename true).2 = some text
        ∧ text = joinLines (spfHeader :: w.playlist.media.map (fun u => (env.path u).drop 1))
        ∧ splitLines text
            = (spfHeader :: w.playlist.media.map (fun u => (env.path u).drop 1), [])
        ∧ (splitLines text).1.length = w.playlist.media.length + 1
        ∧ (splitLines text).1.head? = some spfHeader
        ∧ (∀ i (hi : i < w.playlist.media.length),
            (splitLines text).1.get? (i + 1)
              = some ((env.path (w.playlist.media.get ⟨i, hi⟩)).drop 1))
        ∧ (w.on_savePlaylist_clicked env filename true).1.playlist = w.playlist
        ∧ (w.on_savePlaylist_clicked env filename true).1.ui = w.ui
        ∧ (w.on_savePlaylist_clicked env filename true).1.player = w.player := by
  have hmap : w.playlist.media.map (fun u => (env.filePath (env.path u)).drop 1)
      = w.playlist.media.map (fun u => (env.path u).drop 1) :=
    List.map_congr_left (fun u hu => by rw [hpath u hu])
  have hlines : ∀ l ∈ spfHeader :: w.playlist.media.map (fun u => (env.path u).drop 1),
      LF ∉ l := by
    intro l hl
    rcases List.mem_cons.mp hl with hl | hl
    · rw [hl]; exact LF_not_mem_spfHeader
    · obtain ⟨u, hu, hul⟩ := List.mem_map.mp hl
      rw [← hul]; exact hnl u hu
  have hsplit := splitLines_joinLines _ hlines
  refine ⟨joinLines (spfHeader :: w.playlist.media.map (fun u => (env.path u).drop 1)),
    ?_, rfl, hsplit, ?_, ?_, ?_, ?_, ?_, ?_⟩
  · rw [save_text env w filename hf, hmap]
  · rw [hsplit]; simp
  · rw [hsplit]; rfl
  · intro i hi
    rw [hsplit]
    simp [List.get?_eq_get, hi]
  · rw [save_text env w filename hf]
  · rw [save_text env w filename hf]
  · rw [save_text env w filename hf]

/-- C6, amended, on the playlist A, B, C: the text is the header and the
three paths without their leading separator, four lines in all. -/
theorem save_text_shape_witness :
    (utf16 "list.spf" ≠ []
        ∧ (∀ u ∈ (windowOf threeTracks none).playlist.media,
            (posixQt sampleFiles).filePath ((posixQt sampleFiles).path u)
              = (posixQt sampleFiles).path u)
        ∧ (∀ u ∈ (windowOf threeTracks none).playlist.media,
            LF ∉ ((posixQt sampleFiles).path u).drop 1))
      ∧ ∃ text,
          ((windowOf threeTracks none).on_savePlaylist_clicked (posixQt sampleFiles)
            (utf16 "list.spf") true).2 = some text
          ∧ splitLines text = ([spfHeader, utf16 "A", utf16 "B", utf16 "C"], []) := by
  refine ⟨⟨by decide, fun u _ => rfl, by decide⟩, ?_⟩
  obtain ⟨text, h1, _, h3, _⟩ :=
    save_text_shape (posixQt sampleFiles) (windowOf threeTracks none) (utf16 "list.spf")
      (by decide) (fun u _ => rfl) (by decide)
  exact ⟨text, h1, h3.trans (by decide)⟩

end Save

/-! ## The batch append, item by item -/

/-- C4, as stated, fails: an existing playlist file ("/music/list.m3u", with
two entries) is handed to the playlist's loader and contributes those two
entries, not one entry of its own; and of the three filenames of the example
the third, which does not exist, is a valid relative URL for this toolkit and
is added as a third entry. -/
theorem appendPlaylist_one_entry_counterexample :
    (emptyWindow.appendPlaylist (posixQt sampleFiles) [(utf16 "/music/list.m3u")]).playlist.media
        ≠ emptyWindow.playlist.media
            ++ [(utf16 "/music/list.m3u")].filterMap (MainWindow.entryFor (posixQt sampleFiles))
      ∧ (emptyWindow.appendPlaylist (posixQt sampleFiles)
            [(utf16 "/music/list.m3u")]).playlist.media.length = 2
      ∧ (emptyWindow.appendPlaylist (posixQt sampleFiles)
            [(utf16 "/real/file.mp3"), (utf16 "http://example.com/a.mp3"),
              (utf16 "/does/not/exist")]).playlist.media.length = 3 := by
  decide

/-- C4, amended: `appendPlaylist` is the repeated append of its filenames in
input order.  When no filename names an existing file with the suffix "m3u"
(in any letter case), it keeps the items already in the playlist as a prefix
and adds, in input order, exactly one entry for each filename that names an
existing local file or otherwise parses as a valid URL, and nothing for any
other filename; an existing "m3u" file is handed to `playlist->load` instead.
For the three filenames of the example, where only "/real/file.mp3" exists, it
adds the local file and the URI, and the third only if the URL parser accepts
it. -/
theorem appendPlaylist_entries {Url : Type} (env : Qt Url) (w : MainWindow Url)
    (filenames : List QString)
    (hm3u : ∀ f ∈ filenames, env.fileExists f = true → env.toLower (env.suffix f) ≠ m3u) :
    (w.appendPlaylist env filenames).playlist.media
        = w.playlist.media ++ filenames.filterMap (MainWindow.entryFor env)
      ∧ (w.appendPlaylist env filenames).playlist.currentIndex = w.playlist.currentIndex
      ∧ (∀ fs1 fs2 : List QString,
          w.appendPlaylist env (fs1 ++ fs2) = (w.appendPlaylist env fs1).appendPlaylist env fs2)
      ∧ (∀ f : QString, w.appendPlaylist env [f] = MainWindow.appendOne env w f)
      ∧ (∀ f : QString, env.fileExists f = true → env.toLower (env.suffix f) = m3u →
          w.appendPlaylist env [f]
            = w.playlistLoad env (env.fromLocalFile (env.absoluteFilePath f)))
      ∧ (env.fileExists (utf16 "/real/file.mp3") = true →
          env.toLower (env.suffix (utf16 "/real/file.mp3")) ≠ m3u →
          env.fileExists (utf16 "http://example.com/a.mp3") = false →
          env.isValid (env.url (utf16 "http://example.com/a.mp3")) = true →
          env.fileExists (utf16 "/does/not/exist") = false →
          (w.appendPlaylist env [(utf16 "/real/file.mp3"), (utf16 "http://example.com/a.mp3"),
              (utf16 "/does/not/exist")]).playlist.media
            = w.playlist.media
                ++ [env.fromLocalFile (env.absoluteFilePath (utf16 "/real/file.mp3")),
                    env.url (utf16 "http://example.com/a.mp3")]
                ++ (if env.isValid (env.url (utf16 "/does/not/exist"))
                      then [env.url (utf16 "/does/not/exist")] else [])) := by
  have hone : ∀ (w : MainWindow Url) (f : QString),
      (env.fileExists f = true → env.toLower (env.suffix f) ≠ m3u) →
      (MainWindow.appendOne env w f).playlist.media
        = w.playlist.media ++ (MainWindow.entryFor env f).toList := by
    intro w f hf
    unfold MainWindow.appendOne MainWindow.entryFor
    by_cases h1 : env.fileExists f = true
    · simp [h1, hf h1, MainWindow.addMedia, QMediaPlaylist.addMedia]
    · by_cases h3 : env.isValid (env.url f) = true
      · simp [h1, h3, MainWindow.addMedia, QMediaPlaylist.addMedia]
      · simp [h1, h3]
  have hall : ∀ (fs : List QString) (w : MainWindow Url),
      (∀ f ∈ fs, env.fileExists f = true → env.toLower (env.suffix f) ≠ m3u) →
      (w.appendPlaylist env fs).playlist.media
        = w.playlist.media ++ fs.filterMap (MainWindow.entryFor env) := by
    intro fs
    induction fs with
    | nil => intro w _; simp [MainWindow.appendPlaylist]
    | cons f fs ih =>
      intro w hfs
      have h := ih (MainWindow.appendOne env w f) (fun g hg => hfs g (List.mem_cons_of_mem _ hg))
      simp only [MainWindow.appendPlaylist, List.foldl_cons] at h ⊢
      rw [h, hone w f (hfs f (List.mem_cons_self _ _))]
      cases he : MainWindow.entryFor env f <;> simp [List.filterMap_cons, he]
  refine ⟨hall filenames w hm3u, (appendPlaylist_frame env filenames w).2.2.1, ?_, ?_, ?_, ?_⟩
  · intro fs1 fs2
    simp [MainWindow.appendPlaylist, List.foldl_append]
  · intro f
    rfl
  · intro f h1 h2
    simp [MainWindow.appendPlaylist, MainWindow.appendOne, h1, h2]
  · intro h1 h2 h3 h4 h5
    rw [hall]
    · have e1 : MainWindow.entryFor env (utf16 "/real/file.mp3")
          = some (env.fromLocalFile (env.absoluteFilePath (utf16 "/real/file.mp3"))) := by
        unfold MainWindow.entryFor
        rw [if_pos h1]
      have e2 : MainWindow.entryFor env (utf16 "http://example.com/a.mp3")
          = some (env.url (utf16 "http://example.com/a.mp3")) := by
        unfold MainWindow.entryFor
        rw [if_neg (by rw [h3]; exact Bool.false_ne_true), if_pos h4]
      have e3 : MainWindow.entryFor env (utf16 "/does/not/exist")
          = if env.isValid (env.url (utf16 "/does/not/exist")) = true
              then some (env.url (utf16 "/does/not/exist")) else none := by
        unfold MainWindow.entryFor
        rw [if_neg (by rw [h5]; exact Bool.false_ne_true)]
      rw [List.filterMap_cons, e1, List.filterMap_cons, e2, List.filterMap_cons, e3]
      by_cases h6 : env.isValid (env.url (utf16 "/does/not/exist")) = true
      · rw [if_pos h6, if_pos h6]
        simp only [List.filterMap_nil, List.append_assoc, List.cons_append, List.nil_append]
      · rw [if_neg h6, if_neg h6]
        simp only [List.filterMap_nil, List.append_assoc, List.cons_append, List.nil_append]
    · intro f hf hex
      simp only [List.mem_cons, List.mem_singleton, List.not_mem_nil, or_false] at hf
      rcases hf with hf | hf | hf
      · rw [hf]; exact h2
      · rw [hf, h3] at hex; cases hex
      · rw [hf, h5] at hex; cases hex

/-- C4, amended, on the three filenames of the example, where only
"/real/file.mp3" exists: the local file, the URI, and the relative URL. -/
theorem appendPlaylist_entries_witness :
    (∀ f ∈ [(utf16 "/real/file.mp3"), (utf16 "http://example.com/a.mp3"), (utf16 "/does/not/exist")],
        (posixQt sampleFiles).fileExists f = true →
          (posixQt sampleFiles).toLower ((posixQt sampleFiles).suffix f) ≠ m3u)
      ∧ (emptyWindow.appendPlaylist (posixQt sampleFiles)
          [(utf16 "/real/file.mp3"), (utf16 "http://example.com/a.mp3"),
            (utf16 "/does/not/exist")]).playlist.media
        = [{ scheme := (utf16 "file"), authority := [], path := (utf16 "/real/file.mp3") },
           { scheme := (utf16 "http"), authority := (utf16 "example.com"), path := (utf16 "/a.mp3") },
           { scheme := [], authority := [], path := (utf16 "/does/not/exist") }] := by
  refine ⟨by decide, ?_⟩
  rw [(appendPlaylist_entries (posixQt sampleFiles) emptyWindow
    [(utf16 "/real/file.mp3"), (utf16 "http://example.com/a.mp3"), (utf16 "/does/not/exist")]
    (by decide)).1]
  decide

/-! ## The round trip of the playlist file -/

/-- C1 at a playlist of one network track and at a playlist of one local
file: the text saved holds the URL path without its first character
("a.mp3", "real/file.mp3"), and loading that text into an empty playlist gives
a relative URL, not the track that was saved. -/
theorem save_load_roundtrip_fails :
    ((windowOf [parseUrl (utf16 "http://example.com/a.mp3")] none).on_savePlaylist_clicked
          (posixQt sampleFiles) (utf16 "list.spf") true).2
        = some (utf16 "Simple Playlist Format 1.0\na.mp3\n")
      ∧ (emptyWindow.on_loadPlaylist_clicked (posixQt sampleFiles) (utf16 "list.spf")
          (some (utf16 "Simple Playlist Format 1.0\na.mp3\n"))).map (fun w => w.playlist.media)
        = some [{ scheme := [], authority := [], path := (utf16 "a.mp3") }]
      ∧ [({ scheme := [], authority := [], path := (utf16 "a.mp3") } : SimpleUrl)]
        ≠ [parseUrl (utf16 "http://example.com/a.mp3")]
      ∧ ((emptyWindow.appendPlaylist (posixQt sampleFiles)
            [(utf16 "/real/file.mp3")]).on_savePlaylist_clicked
          (posixQt sampleFiles) (utf16 "list.spf") true).2
        = some (utf16 "Simple Playlist Format 1.0\nreal/file.mp3\n")
      ∧ (emptyWindow.on_loadPlaylist_clicked (posixQt sampleFiles) (utf16 "list.spf")
          (some (utf16 "Simple Playlist Format 1.0\nreal/file.mp3\n"))).map
            (fun w => w.playlist.media)
        = some [{ scheme := [], authority := [], path := (utf16 "real/file.mp3") }]
      ∧ [({ scheme := [], authority := [], path := (utf16 "real/file.mp3") } : SimpleUrl)]
        ≠ (emptyWindow.appendPlaylist (posixQt sampleFiles)
            [(utf16 "/real/file.mp3")]).playlist.media := by
  decide

/-! ## The clock of `progressChanged` -/

/-- On a number of seconds whose milliseconds fit 64 bits, the clock value has
the hour, minute and second of the usual division and no millisecond part. -/
theorem clock_of_nonneg (c : Int) (h0 : 0 ≤ c) (h1 : c * 1000 < 2 ^ 63) :
    MainWindow.clock c = { h := c / 3600 % 60, m := c / 60 % 60, s := c % 60, ms := 0 } := by
  have hw : wrap64 (c * 1000) = c * 1000 := by
    unfold wrap64
    rw [Int.emod_eq_of_lt (by omega) (by omega)]
    omega
  unfold MainWindow.clock
  rw [hw, Int.mul_tmod_left]
  rw [Int.tdiv_eq_ediv h0 (by norm_num), Int.tdiv_eq_ediv h0 (by norm_num),
    Int.tmod_eq_emod h0 (by norm_num),
    Int.tmod_eq_emod (Int.ediv_nonneg h0 (by norm_num)) (by norm_num),
    Int.tmod_eq_emod (Int.ediv_nonneg h0 (by norm_num)) (by norm_num)]

/-- C9: for a position `progress > 0` (a `qint64`), with
`current = progress / 1000`, `progressChanged` sets the position label to the
clock value `h = (current/3600) % 60`, `m = (current/60) % 60`,
`s = current % 60` with millisecond part 0; `m` and `s` lie in `[0, 59]`; when
`current < 216000` the components give the position back,
`h*3600 + m*60 + s = current`; when the format is "mm:ss"
(`duration/1000 < 3600`) and `current <= duration/1000`, `h = 0` and
`m*60 + s = current`; and for `progress = 0` neither label is written. -/
theorem progressChanged_clock {Url : Type} (w : MainWindow Url) (progress : Int)
    (hpos : 0 < progress) (hmax : progress < 2 ^ 63) :
    (w.progressChanged progress).ui.currentDuration =
        .time { h := progress / 1000 / 3600 % 60, m := progress / 1000 / 60 % 60,
                s := progress / 1000 % 60, ms := 0 }
          (if w.player.duration.tdiv 1000 < 3600 then (utf16 "mm:ss") else (utf16 "hh:mm:ss"))
      ∧ (0 ≤ progress / 1000 / 60 % 60 ∧ progress / 1000 / 60 % 60 ≤ 59)
      ∧ (0 ≤ progress / 1000 % 60 ∧ progress / 1000 % 60 ≤ 59)
      ∧ (progress / 1000 < 216000 →
          progress / 1000 / 3600 % 60 * 3600 + progress / 1000 / 60 % 60 * 60
            + progress / 1000 % 60 = progress / 1000)
      ∧ (w.player.duration.tdiv 1000 < 3600 → progress / 1000 ≤ w.player.duration.tdiv 1000 →
          progress / 1000 / 3600 % 60 = 0
            ∧ progress / 1000 / 60 % 60 * 60 + progress / 1000 % 60 = progress / 1000)
      ∧ (w.progressChanged 0).ui.currentDuration = w.ui.currentDuration
      ∧ (w.progressChanged 0).ui.maxDuration = w.ui.maxDuration := by
  have hne : progress ≠ 0 := by omega
  have hc : MainWindow.clock (progress.tdiv 1000)
      = { h := progress / 1000 / 3600 % 60, m := progress / 1000 / 60 % 60,
          s := progress / 1000 % 60, ms := 0 } := by
    rw [Int.tdiv_eq_ediv (by omega) (by norm_num)]
    exact clock_of_nonneg _ (by omega) (by omega)
  refine ⟨?_, by omega, by omega, by omega, by omega, ?_, ?_⟩
  · simp only [MainWindow.progressChanged, if_pos hne, hc]
  · unfold MainWindow.progressChanged
    by_cases hd : w.ui.duration.sliderDown = true <;> simp [hd]
  · unfold MainWindow.progressChanged
    by_cases hd : w.ui.duration.sliderDown = true <;> simp [hd]

/-- C9 at a position of 3 725 999 ms in a medium of two hours. -/
theorem progressChanged_clock_witness :
    ((0 : Int) < 3725999 ∧ (3725999 : Int) < 2 ^ 63)
      ∧ (emptyWindow.progressChanged 3725999).ui.currentDuration
          = .time { h := 1, m := 2, s := 5, ms := 0 } (utf16 "hh:mm:ss") :=
  ⟨⟨by norm_num, by norm_num⟩,
    (progressChanged_clock emptyWindow 3725999 (by norm_num) (by norm_num)).1.trans (by decide)⟩

/-! ## Volume and mute -/

/-- C10: for a slider value `v` (within the volume range `0..100`),
`on_volume_valueChanged(v)` with `v = 0` sets muted to true and leaves the
volume as it was, and with `v ≠ 0` sets muted to false and the volume to `v`;
`on_mute_clicked` flips the muted flag and leaves the volume as it was, and
two clicks give the window back; none of them writes a widget or the playlist,
and the slots `muted` and `volumeChanged` do not write the player. -/
theorem volume_slider_commands {Url : Type} (w : MainWindow Url) (v : Int)
    (hlo : 0 ≤ v) (hhi : v ≤ 100) :
    (v = 0 → (w.on_volume_valueChanged v).player.muted = true
        ∧ (w.on_volume_valueChanged v).player.volume = w.player.volume)
      ∧ (v ≠ 0 → (w.on_volume_valueChanged v).player.muted = false
        ∧ (w.on_volume_valueChanged v).player.volume = v)
      ∧ w.on_mute_clicked.player.muted = !w.player.muted
      ∧ w.on_mute_clicked.player.volume = w.player.volume
      ∧ w.on_mute_clicked.on_mute_clicked = w
      ∧ ((w.on_volume_valueChanged v).ui = w.ui
          ∧ (w.on_volume_valueChanged v).playlist.media = w.playlist.media
          ∧ w.on_mute_clicked.ui = w.ui)
      ∧ ∀ m : Bool, (w.muted m).player = w.player ∧ (w.volumeChanged v).player = w.player := by
  refine ⟨?_, ?_, ?_, ?_, ?_, ?_, ?_⟩
  · intro h0
    simp [MainWindow.on_volume_valueChanged, h0, QMediaPlayer.setMuted]
  · intro h0
    simp only [MainWindow.on_volume_valueChanged, if_neg h0, QMediaPlayer.setMuted,
      QMediaPlayer.setVolume]
    refine ⟨trivial, ?_⟩
    omega
  · unfold MainWindow.on_mute_clicked
    cases hm : w.player.muted <;> simp [QMediaPlayer.setMuted]
  · unfold MainWindow.on_mute_clicked
    cases hm : w.player.muted <;> simp [QMediaPlayer.setMuted]
  · obtain ⟨ui, ⟨muted, volume, duration⟩, playlist, log⟩ := w
    cases muted <;> simp [MainWindow.on_mute_clicked, QMediaPlayer.setMuted]
  · refine ⟨?_, ?_, ?_⟩
    · unfold MainWindow.on_volume_valueChanged
      split <;> rfl
    · unfold MainWindow.on_volume_valueChanged
      split <;> rfl
    · unfold MainWindow.on_mute_clicked
      split <;> rfl
  · intro m
    refine ⟨?_, rfl⟩
    unfold MainWindow.muted
    cases m <;> rfl

/-- C10 at the slider value 30, from volume 50. -/
theorem volume_slider_commands_witness :
    ((0 : Int) ≤ 30 ∧ (30 : Int) ≤ 100)
      ∧ (emptyWindow.on_volume_valueChanged 30).player.muted = false
      ∧ (emptyWindow.on_volume_valueChanged 30).player.volume = 30 :=
  ⟨⟨by norm_num, by norm_num⟩,
    (volume_slider_commands emptyWindow 30 (by norm_num) (by norm_num)).2.1 (by norm_num)⟩

/-! ## Advancing and removing -/

/-- C8: the constructor sets the playback mode Sequential, and in that mode,
on a non-empty playlist, `on_next_clicked` from the last position leaves no
current item (it does not wrap to position 0), and `on_previous_clicked` from
position 0 leaves no current item; the items stay as they were. -/
theorem sequential_advance_stops {Url : Type} (w : MainWindow Url) (draw : Nat)
    (player : QMediaPlayer) (ui : Ui)
    (hmode : w.playlist.playbackMode = (MainWindow.new player ui : MainWindow Url).playlist.playbackMode)
    (hne : w.playlist.media ≠ []) :
    (MainWindow.new player ui : MainWindow Url).playlist.playbackMode = .Sequential
      ∧ (w.playlist.currentIndex = some ((w.playlist.media.length : Int) - 1) →
          (w.on_next_clicked draw).playlist.currentIndex = none
            ∧ (w.on_next_clicked draw).playlist.currentIndex ≠ some 0
            ∧ (w.on_next_clicked draw).playlist.media = w.playlist.media)
      ∧ (w.playlist.currentIndex = some 0 →
          (w.on_previous_clicked draw).playlist.currentIndex = none
            ∧ (w.on_previous_clicked draw).playlist.media = w.playlist.media) := by
  have hseq : w.playlist.playbackMode = .Sequential := hmode
  have hemp : w.playlist.media.isEmpty = false := by
    cases hm : w.playlist.media with
    | nil => exact absurd hm hne
    | cons a l => rfl
  refine ⟨rfl, ?_, ?_⟩
  · intro hcur
    simp [MainWindow.on_next_clicked, QMediaPlaylist.advance, hemp, hseq, hcur,
      QMediaPlaylist.step, QMediaPlaylist.mediaCount]
  · intro hcur
    simp [MainWindow.on_previous_clicked, QMediaPlaylist.advance, hemp, hseq, hcur,
      QMediaPlaylist.step, QMediaPlaylist.mediaCount]

/-- C8 on the playlist A, B, C with C current: Next leaves no current item. -/
theorem sequential_advance_stops_witness :
    (windowOf threeTracks (some 2)).playlist.media ≠ []
      ∧ ((windowOf threeTracks (some 2)).on_next_clicked 0).playlist.currentIndex = none :=
  ⟨by decide,
    ((sequential_advance_stops (windowOf threeTracks (some 2)) 0 samplePlayer sampleUi rfl
      (by decide)).2.1 rfl).1⟩

/-- C7: on the playlist A, B, C the remove handler has no defined result when
no row is selected (`QList::first()` on an empty list), whereas a selected row 5
is refused by the playlist with `IndexOutOfRange` and leaves the window as it
was. -/
theorem removeTracks_without_selection :
    (windowOf threeTracks (some 1)).on_removeTracks_clicked [] = none
      ∧ (windowOf threeTracks (some 1)).playlist.removeMedia 5 = .error .IndexOutOfRange
      ∧ ((windowOf threeTracks (some 1)).on_removeTracks_clicked [5]).map (fun w => w.playlist.media)
          = some threeTracks := by
  refine ⟨rfl, ?_, ?_⟩
  · simp [QMediaPlaylist.removeMedia, QMediaPlaylist.mediaCount, windowOf, threeTracks]
  · simp [MainWindow.on_removeTracks_clicked, QMediaPlaylist.removeMedia,
      QMediaPlaylist.mediaCount, windowOf, threeTracks]

end SimpleMediaPlayer
